import Mathlib

/-!
Verification of the FemtOS commander
(`src/FemtoRV/FIRMWARE/FEMTOS/commander.c`).

The commander is a small launcher/shell: it lists the launchable files of
the current directory, tracks a selected index and a scroll offset, lets the
user move the selection and launch a program, and offers a line-oriented
shell with a handful of builtin commands.  The definitions below are a
shallow embedding of the C source: pure C functions become Lean functions,
the display/storage side effects become explicit effect lists, and C `int`
arithmetic (which never approaches overflow here) is modelled on `ℤ`.
-/

namespace Commander

/-! ### Executable filter (`is_executable`, commander.c lines 15-20)

The C code computes `l = strlen(filename)` and returns
`(l >= 4 && !strcmp(filename+l-4, ".bin")) || (l >= 4 && !strcmp(filename+l-4, ".elf"))`;
`filename + l - 4` is the 4-character suffix of the name. -/

def is_executable (s : String) : Bool :=
  (decide (4 ≤ s.length) && (s.drop (s.length - 4) == ".bin")) ||
  (decide (4 ≤ s.length) && (s.drop (s.length - 4) == ".elf"))

/-! ### Selection re-clamping (commander.c lines 186-193 and 204-212)

`main` re-constrains the persistent selection state after every refresh:

    if (sel < 0)  sel = 0;
    if (sel >= nb) sel = nb - 1;
    from = MIN(from, sel);
    from = MAX(from, sel - LINES + 1);

`LINES = OLED_HEIGHT / FONT_HEIGHT` is the page size, a positive constant
fixed by the display geometry (its numeric value lives in the display
header, outside this repository); we keep it as a parameter `page`. -/

def clampSel (nb s : ℤ) : ℤ :=
  let s1 := if s < 0 then 0 else s
  if s1 ≥ nb then nb - 1 else s1

def reclamp (page nb s f : ℤ) : ℤ × ℤ :=
  let s1 := clampSel nb s
  let f1 := min f s1
  let f2 := max f1 (s1 - page + 1)
  (s1, f2)

/-! ### Directional moves (commander.c lines 196-209)

Button 2 does `sel--`, button 3 does `sel++`, and the same two clamping
`if`s as above immediately re-constrain `sel`. -/

def moveUp (nb s : ℤ) : ℤ := clampSel nb (s - 1)

def moveDown (nb s : ℤ) : ℤ := clampSel nb (s + 1)

/-! ### Helper lemmas about the clamp -/

theorem clampSel_idem (nb s : ℤ) : clampSel nb (clampSel nb s) = clampSel nb s := by
  simp only [clampSel]
  split_ifs <;> omega

theorem clampSel_pos (nb s : ℤ) (h : 0 < nb) :
    0 ≤ clampSel nb s ∧ clampSel nb s < nb := by
  simp only [clampSel]
  split_ifs <;> omega

/-- Claim C1, the claim as frozen is refuted at a concrete input: with
`page = 16` (a 128-pixel-high display with the 8-pixel font), `total_count = 0`
and prior pair `(selected_index, top_index) = (0, 0)`, the reclamp sequence
yields `selected_index' = -1` and `top_index' = -1`, so the asserted invariant
`top_index' ≥ 0` fails even though `total_count` is non-negative. -/
theorem reclamp_top_nonneg_cex :
    reclamp 16 0 0 0 = (-1, -1) ∧ (reclamp 16 0 0 0).2 < 0 := by
  constructor <;> decide

/-- Claim C1 (amended): for positive page size and non-negative
`total_count`, reclamp always establishes
`top_index' ≤ selected_index' ≤ top_index' + page - 1`; when
`total_count > 0` it establishes `0 ≤ selected_index' < total_count`; and
`top_index' ≥ 0` additionally needs `total_count > 0` and a non-negative
prior `top_index` (when `total_count = 0` the code parks the selection at
`-1` and drags `top_index` below zero with it). -/
theorem reclamp_invariants (page nb s f : ℤ) (hp : 1 ≤ page) (hnb : 0 ≤ nb) :
    (reclamp page nb s f).2 ≤ (reclamp page nb s f).1 ∧
    (reclamp page nb s f).1 ≤ (reclamp page nb s f).2 + page - 1 ∧
    (0 < nb → 0 ≤ (reclamp page nb s f).1 ∧ (reclamp page nb s f).1 < nb) ∧
    (0 < nb → 0 ≤ f → 0 ≤ (reclamp page nb s f).2) := by
  simp only [reclamp, clampSel, min_def, max_def]
  split_ifs <;> refine ⟨by omega, by omega, fun h => ⟨by omega, by omega⟩, fun h hf => by omega⟩

/-- Witness for `reclamp_invariants` at `page = 16`, `nb = 20`, prior pair
`(30, 7)`. -/
theorem reclamp_invariants_witness :
    (reclamp 16 20 30 7).2 ≤ (reclamp 16 20 30 7).1 ∧
    (reclamp 16 20 30 7).1 ≤ (reclamp 16 20 30 7).2 + 16 - 1 ∧
    ((0 : ℤ) < 20 → 0 ≤ (reclamp 16 20 30 7).1 ∧ (reclamp 16 20 30 7).1 < 20) ∧
    ((0 : ℤ) < 20 → (0 : ℤ) ≤ 7 → 0 ≤ (reclamp 16 20 30 7).2) :=
  reclamp_invariants 16 20 30 7 (by decide) (by decide)

/-- Claim C2: for every positive page size, non-negative `total_count` and
arbitrary prior pair, `reclamp` is idempotent: re-applying it to its own
output (with the same `total_count`) returns that output unchanged. -/
theorem reclamp_idem (page nb s f : ℤ) (hp : 1 ≤ page) (_hnb : 0 ≤ nb) :
    reclamp page nb (reclamp page nb s f).1 (reclamp page nb s f).2 =
      reclamp page nb s f := by
  simp only [reclamp, clampSel_idem]
  have hf : max (min f (clampSel nb s)) (clampSel nb s - page + 1) ≤ clampSel nb s :=
    max_le (min_le_right _ _) (by omega)
  rw [min_eq_left hf, max_eq_left (le_max_right _ _)]

/-- Witness for `reclamp_idem` at `page = 16`, `nb = 5`, prior pair `(10, -3)`. -/
theorem reclamp_idem_witness :
    reclamp 16 5 (reclamp 16 5 10 (-3)).1 (reclamp 16 5 10 (-3)).2 =
      reclamp 16 5 10 (-3) :=
  reclamp_idem 16 5 10 (-3) (by decide) (by decide)

/-- Claim C7: with `total_count > 0` and an in-range selection, a directional
move changes `selected_index` by exactly one, silently clamped at both
boundaries with no wraparound: up at index 0 stays 0, down at
`total_count - 1` stays `total_count - 1`. -/
theorem move_clamped (nb s : ℤ) (h0 : 0 < nb) (h1 : 0 ≤ s) (h2 : s < nb) :
    moveUp nb s = (if s = 0 then 0 else s - 1) ∧
    moveDown nb s = (if s = nb - 1 then nb - 1 else s + 1) := by
  simp only [moveUp, moveDown, clampSel]
  split_ifs <;> omega

/-- Witness for `move_clamped` at the two boundaries of a 3-entry list:
up at 0 stays 0, down at 2 stays 2. -/
theorem move_clamped_witness :
    (moveUp 3 0 = (if (0 : ℤ) = 0 then 0 else 0 - 1) ∧
      moveDown 3 0 = (if (0 : ℤ) = 3 - 1 then 3 - 1 else 0 + 1)) ∧
    (moveUp 3 2 = (if (2 : ℤ) = 0 then 0 else 2 - 1) ∧
      moveDown 3 2 = (if (2 : ℤ) = 3 - 1 then 3 - 1 else 2 + 1)) :=
  ⟨move_clamped 3 0 (by decide) (by decide) (by decide),
   move_clamped 3 2 (by decide) (by decide) (by decide)⟩

/-- Claim C3: `is_executable` is a total Boolean function of the filename,
true exactly when the length is at least 4 and the 4-character suffix is one
of the two (lowercase) launchable extensions `".bin"` and `".elf"`; in
particular `"game.bin"` and `"game.elf"` are launchable while
`"readme.txt"`, `"a.bi"` and every string shorter than 4 characters are
not. -/
theorem is_executable_spec :
    (∀ s : String, is_executable s = true ↔
      4 ≤ s.length ∧
        (s.drop (s.length - 4) = ".bin" ∨ s.drop (s.length - 4) = ".elf")) ∧
    is_executable "game.bin" = true ∧
    is_executable "game.elf" = true ∧
    is_executable "readme.txt" = false ∧
    is_executable "a.bi" = false ∧
    (∀ s : String, s.length < 4 → is_executable s = false) := by
  refine ⟨fun s => ?_, by decide, by decide, by decide, by decide, fun s h => ?_⟩
  · simp only [is_executable, Bool.or_eq_true, Bool.and_eq_true, decide_eq_true_eq,
      beq_iff_eq]
    tauto
  · simp only [is_executable, Bool.or_eq_false_iff, Bool.and_eq_false_iff,
      decide_eq_false_iff_not, not_le]
    exact ⟨Or.inl h, Or.inl h⟩

/-- Witness for `is_executable_spec`: instantiating its universally
quantified conjuncts at `"game.bin"` and at the short string `"ab"`. -/
theorem is_executable_spec_witness :
    (4 ≤ "game.bin".length ∧
      ("game.bin".drop ("game.bin".length - 4) = ".bin" ∨
        "game.bin".drop ("game.bin".length - 4) = ".elf")) ∧
    is_executable "ab" = false :=
  ⟨(is_executable_spec.1 "game.bin").mp (by decide),
   is_executable_spec.2.2.2.2.2 "ab" (by decide)⟩

/-! ### Directory listing (`refresh`, commander.c lines 27-61)

`refresh(from, sel)` walks the directory stream, skips entries rejected by
`is_executable`, renders the entries whose running index `cur` lies in the
window `[from, from + LINES)` (highlighting the one equal to `sel`), counts
every filtered entry in `cur`, and returns `cur`.  If `fl_opendir` fails it
renders nothing and returns the initial `cur = 0`.  The directory stream is
modelled as `Option (List String)`: `none` when `fl_opendir` fails, `some fs`
for the sequence of filenames `fl_readdir` yields.  Rendering becomes a list
of rows `(index, printed text, highlighted?)`. -/

def truncName (f : String) : String :=
  if f.length - 4 ≤ 14 then f.take (f.length - 4) else f.take 14 ++ "."

def refreshLoop (page frm sel : ℤ) : ℤ → List String → ℤ × List (ℤ × String × Bool)
  | cur, [] => (cur, [])
  | cur, f :: fs =>
    if ¬ is_executable f then refreshLoop page frm sel cur fs
    else
      let rest := refreshLoop page frm sel (cur + 1) fs
      if frm ≤ cur ∧ cur < frm + page then
        (rest.1, (cur, truncName f, cur == sel) :: rest.2)
      else rest

def refresh (page : ℤ) (dir : Option (List String)) (frm sel : ℤ) :
    ℤ × List (ℤ × String × Bool) :=
  match dir with
  | none => (0, [])
  | some fs => refreshLoop page frm sel 0 fs

theorem refreshLoop_count (page frm sel : ℤ) :
    ∀ (fs : List String) (cur : ℤ),
      (refreshLoop page frm sel cur fs).1 =
        cur + ((fs.filter (fun f => is_executable f)).length : ℤ) := by
  intro fs
  induction fs with
  | nil => intro cur; simp [refreshLoop]
  | cons f fs ih =>
    intro cur
    by_cases hf : is_executable f
    · by_cases hw : frm ≤ cur ∧ cur < frm + page
      · simp only [refreshLoop, hf, not_true, if_neg, ite_false, if_pos hw, ih,
          List.filter_cons]
        push_cast [List.length_cons]
        omega
      · simp only [refreshLoop, hf, not_true, if_neg, ite_false, if_neg hw, ih,
          List.filter_cons]
        push_cast [List.length_cons]
        omega
    · simp [refreshLoop, hf, ih, List.filter_cons]

/-- Claim C5: `refresh` returns the total number of directory entries that
pass the executable filter — all filtered entries are counted, including the
ones outside the visible window `[top_index, top_index + page)` — and a
failed directory open (`none`) yields total count 0 with nothing rendered,
not an error. -/
theorem refresh_returns_total_count :
    (∀ (page frm sel : ℤ) (fs : List String),
      (refresh page (some fs) frm sel).1 =
        ((fs.filter (fun f => is_executable f)).length : ℤ)) ∧
    (∀ page frm sel : ℤ, refresh page none frm sel = (0, [])) := by
  refine ⟨fun page frm sel fs => ?_, fun page frm sel => rfl⟩
  simp [refresh, refreshLoop_count]

/-! ### Launching the selection (`call_exec`, commander.c lines 63-82)

`call_exec(sel)` re-enumerates the directory, keeps a running index `cur`
over the entries that pass the filter, and when `cur == sel` builds
`cwd ++ filename` and calls `exec` (then `exit`), never continuing the walk.
The result is the path handed to `exec`, or `none` when the walk finishes
(or the directory cannot be opened) without reaching `sel`. -/

def execLoop (cwd : String) (sel : ℤ) : ℤ → List String → Option String
  | _, [] => none
  | cur, f :: fs =>
    if is_executable f then
      if cur = sel then some (cwd ++ f) else execLoop cwd sel (cur + 1) fs
    else execLoop cwd sel cur fs

def call_exec (cwd : String) (dir : Option (List String)) (sel : ℤ) : Option String :=
  match dir with
  | none => none
  | some fs => execLoop cwd sel 0 fs

theorem execLoop_out_of_range (cwd : String) (sel : ℤ) :
    ∀ (fs : List String) (cur : ℤ),
      (sel < cur ∨ cur + ((fs.filter (fun f => is_executable f)).length : ℤ) ≤ sel) →
      execLoop cwd sel cur fs = none := by
  intro fs
  induction fs with
  | nil => intro cur _; rfl
  | cons f fs ih =>
    intro cur h
    by_cases hf : is_executable f
    · have hlen : ((f :: fs).filter (fun g => is_executable g)).length =
          (fs.filter (fun g => is_executable g)).length + 1 := by
        simp [List.filter_cons, hf]
      have hne : cur ≠ sel := by
        rw [hlen] at h
        push_cast at h
        omega
      have hrec : sel < cur + 1 ∨
          (cur + 1) + ((fs.filter (fun g => is_executable g)).length : ℤ) ≤ sel := by
        rw [hlen] at h
        push_cast at h
        omega
      simp [execLoop, hf, hne, ih _ hrec]
    · have hlen : ((f :: fs).filter (fun g => is_executable g)).length =
          (fs.filter (fun g => is_executable g)).length := by
        simp [List.filter_cons, hf]
      rw [hlen] at h
      simp [execLoop, hf, ih _ h]

/-- Claim C6: `call_exec` is a no-op — it returns without handing any path
to the external-execution primitive — whenever the directory cannot be
enumerated, and whenever `selected_index` is out of range of the filtered
entry list (negative, or at least the count of filtered entries). -/
theorem call_exec_out_of_range_noop :
    (∀ (cwd : String) (sel : ℤ), call_exec cwd none sel = none) ∧
    (∀ (cwd : String) (fs : List String) (sel : ℤ),
      sel < 0 ∨ ((fs.filter (fun f => is_executable f)).length : ℤ) ≤ sel →
      call_exec cwd (some fs) sel = none) := by
  refine ⟨fun cwd sel => rfl, fun cwd fs sel h => ?_⟩
  apply execLoop_out_of_range
  rcases h with h | h
  · exact Or.inl h
  · exact Or.inr (by omega)

/-- Witness for `call_exec_out_of_range_noop`: a directory with a single
launchable entry, probed at the out-of-range selections `-1` and `1`. -/
theorem call_exec_out_of_range_noop_witness :
    call_exec "/" (some ["game.bin"]) (-1) = none ∧
    call_exec "/" (some ["game.bin"]) 1 = none :=
  ⟨call_exec_out_of_range_noop.2 "/" ["game.bin"] (-1) (Or.inl (by decide)),
   call_exec_out_of_range_noop.2 "/" ["game.bin"] 1 (Or.inr (by decide))⟩

/-! ### Command-line tokenization (`shell`, commander.c lines 137-162)

The line editor stores typed characters in `cmdline[PATH_LEN]` while
`ptr < cmdline + PATH_LEN - 2`, so an accepted line holds at most
`PATH_LEN - 2 = 253` characters.  On carriage-return/newline the buffer is
split with `strtok(cmdline, " ")` / `strtok(NULL, " ")` — the delimiter set
is the single space character — and each token pointer is stored into
`char* argv[100]` at index `argc++`.  `tokensAux` models the strtok loop
character by character (`acc` holds the token being accumulated, reversed);
`tokensSpec` is written from the spec's words: the maximal runs of
non-whitespace characters, in order. -/

def PATH_LEN : ℕ := 255

def tokensAux (acc : List Char) : List Char → List (List Char)
  | [] => if acc.isEmpty then [] else [acc.reverse]
  | c :: cs =>
    if c = ' ' then
      if acc.isEmpty then tokensAux [] cs else acc.reverse :: tokensAux [] cs
    else tokensAux (c :: acc) cs

def tokenize (s : String) : List String :=
  (tokensAux [] s.toList).map (fun t => String.mk t)

theorem dropWhile_length_le {α : Type} (p : α → Bool) :
    ∀ l : List α, (l.dropWhile p).length ≤ l.length := by
  intro l
  induction l with
  | nil => exact Nat.le_refl _
  | cons a l ih =>
    rw [List.dropWhile]
    by_cases h : p a
    · simp only [h, ite_true]
      exact Nat.le_trans ih (Nat.le_succ _)
    · simp [h]

/-- Modelled from the spec: "the buffer is tokenized by splitting on
whitespace into an ordered sequence of tokens", the tokens being "the
maximal whitespace-free substrings in order".  Whitespace here is the space
character — the delimiter set the dispatcher's strtok calls use. -/
def tokensSpec : List Char → List (List Char)
  | [] => []
  | c :: cs =>
    if c = ' ' then tokensSpec cs
    else (c :: cs.takeWhile (fun d => decide (d ≠ ' '))) ::
      tokensSpec (cs.dropWhile (fun d => decide (d ≠ ' ')))
termination_by l => l.length
decreasing_by
  simp_wf
  have h := dropWhile_length_le (fun d => decide (d ≠ ' ')) cs
  exact Nat.lt_succ_of_le h

theorem tokensSpec_nil : tokensSpec [] = [] := by
  rw [tokensSpec]

theorem tokensSpec_cons (c : Char) (cs : List Char) :
    tokensSpec (c :: cs) =
      if c = ' ' then tokensSpec cs
      else (c :: cs.takeWhile (fun d => decide (d ≠ ' '))) ::
        tokensSpec (cs.dropWhile (fun d => decide (d ≠ ' '))) := by
  rw [tokensSpec]

theorem tokensAux_eq_tokensSpec :
    ∀ cs acc : List Char,
      tokensAux acc cs =
        if acc.isEmpty then tokensSpec cs
        else (acc.reverse ++ cs.takeWhile (fun d => decide (d ≠ ' '))) ::
          tokensSpec (cs.dropWhile (fun d => decide (d ≠ ' '))) := by
  intro cs
  induction cs with
  | nil =>
    intro acc
    by_cases h : acc.isEmpty <;>
      simp [tokensAux, tokensSpec_nil, h]
  | cons c cs ih =>
    intro acc
    by_cases hc : c = ' '
    · subst hc
      by_cases h : acc.isEmpty <;>
        simp [tokensAux, tokensSpec_cons, h, ih, List.takeWhile_cons, List.dropWhile_cons]
    · by_cases h : acc.isEmpty
      · have hacc : acc = [] := by
          cases acc with
          | nil => rfl
          | cons a as => simp [List.isEmpty] at h
        subst hacc
        simp [tokensAux, tokensSpec_cons, hc, ih, List.takeWhile_cons, List.dropWhile_cons]
      · simp [tokensAux, tokensSpec_cons, h, hc, ih, List.takeWhile_cons, List.dropWhile_cons]

/-! ### Shell dispatch (`shell_exec`, commander.c lines 88-135)

`shell_exec(argc, argv)` returns 0 for `exit` (ending the shell loop) and 1
otherwise.  Its observable actions on the display/storage/execution
collaborators are modelled as an effect list: `print` for `printf`/the
`\n` echoes, `listdir` for `fl_listdirectory(cwd)`, `ttyInit` for
`GL_tty_init` (whose argument is either a parsed number or the global
`FGA_mode`, a display-mode value owned by the graphics layer outside this
repository), `setFont` for `GL_set_font`, and `execp` for `exec` on a
constructed path. -/

inductive Font
  | f3x5
  | f5x6
  | f8x8
  | f8x16
deriving DecidableEq

inductive TtyArg
  | num (n : ℤ)
  | fgaMode
deriving DecidableEq

inductive Eff
  | print (s : String)
  | listdir
  | ttyInit (a : TtyArg)
  | setFont (f : Font)
  | execp (p : String)
deriving DecidableEq

/-- C `atoi`: skip leading whitespace, read an optional sign, then fold the
longest run of decimal digits. -/
def digitsVal : List Char → ℤ → ℤ
  | [], acc => acc
  | c :: cs, acc =>
    if c.isDigit then digitsVal cs (acc * 10 + ((c.toNat : ℤ) - ('0'.toNat : ℤ)))
    else acc

def isSpaceC (c : Char) : Bool :=
  c = ' ' || c = '\t' || c = '\n' || c = '\x0b' || c = '\x0c' || c = '\r'

def atoi (s : String) : ℤ :=
  match s.toList.dropWhile (fun c => isSpaceC c) with
  | '-' :: rest => - digitsVal rest 0
  | '+' :: rest => digitsVal rest 0
  | cs => digitsVal cs 0

/-- The `switch(font)` of the `font` builtin: a recognized index selects one
of the four fonts, any other index falls through the `default`-less switch
with no effect. -/
def fontEff (n : ℤ) : List Eff :=
  if n = 0 then [Eff.setFont Font.f3x5]
  else if n = 1 then [Eff.setFont Font.f5x6]
  else if n = 2 then [Eff.setFont Font.f8x8]
  else if n = 3 then [Eff.setFont Font.f8x16]
  else []

def shell_exec (cwd : String) (argv : List String) : ℤ × List Eff :=
  match argv with
  | [] => (1, [])
  | cmd :: args =>
    if cmd = "exit" then (0, [])
    else if cmd = "ls" then (1, [Eff.listdir])
    else if cmd = "pwd" then (1, [Eff.print ("\n" ++ cwd ++ "\n")])
    else if cmd = "mode" then
      match args with
      | [a] => (1, [Eff.ttyInit (TtyArg.num (atoi a))])
      | _ => (1, [Eff.print "invalid number of arguments"])
    else if cmd = "font" then
      match args with
      | [a] => (1, Eff.ttyInit TtyArg.fgaMode :: fontEff (atoi a))
      | _ => (1, [Eff.print "invalid number of arguments"])
    else (1, [Eff.print "\n", Eff.execp (cwd ++ cmd ++ ".elf")])

/-- Claim C4: the dispatcher's tokenization agrees with splitting on
whitespace into the ordered sequence of maximal whitespace-free substrings
(`tokensSpec`, written from the spec's words); `"mode 2"` yields exactly
`["mode", "2"]`, an all-whitespace or empty buffer yields zero tokens, and
dispatching zero tokens is a no-op that returns the continue signal with no
effects. -/
theorem tokenize_spec :
    (∀ cs : List Char, tokensAux [] cs = tokensSpec cs) ∧
    tokenize "mode 2" = ["mode", "2"] ∧
    tokenize "   " = [] ∧
    tokenize "" = [] ∧
    (∀ cwd : String, shell_exec cwd [] = (1, [])) := by
  refine ⟨fun cs => ?_, by decide, by decide, by decide, fun cwd => rfl⟩
  rw [tokensAux_eq_tokensSpec]
  simp

/-- Witness for `tokenize_spec`: its universally quantified conjuncts
instantiated at the buffer `"x y"` and at `cwd = "/"`. -/
theorem tokenize_spec_witness :
    tokensAux [] "x y".toList = tokensSpec "x y".toList ∧
    shell_exec "/" [] = (1, []) :=
  ⟨tokenize_spec.1 "x y".toList, tokenize_spec.2.2.2.2 "/"⟩

/-- Claim C8: dispatching the builtin `mode` or `font` with an argument
count different from exactly one prints the argument-count error message and
does nothing else: no display reconfiguration, no other effect, and the
dispatch returns the continue signal 1 (so the shell stays in line
editing). -/
theorem builtin_argcount_error (cwd cmd : String) (args : List String)
    (hcmd : cmd = "mode" ∨ cmd = "font") (hlen : args.length ≠ 1) :
    shell_exec cwd (cmd :: args) = (1, [Eff.print "invalid number of arguments"]) := by
  rcases hcmd with h | h <;> subst h <;>
    rcases args with _ | ⟨a, _ | ⟨b, t⟩⟩ <;> first
      | rfl
      | exact absurd rfl hlen

/-- Witness for `builtin_argcount_error`: `mode` with zero arguments and
`font` with two arguments. -/
theorem builtin_argcount_error_witness :
    shell_exec "/" ["mode"] = (1, [Eff.print "invalid number of arguments"]) ∧
    shell_exec "/" ["font", "1", "2"] = (1, [Eff.print "invalid number of arguments"]) :=
  ⟨builtin_argcount_error "/" "mode" [] (Or.inl rfl) (by decide),
   builtin_argcount_error "/" "font" ["1", "2"] (Or.inr rfl) (by decide)⟩

/-- Claim C9, the claim as frozen is refuted at a concrete input: dispatching
`font 9` (one argument, index 9 unrecognized) prints nothing and selects no
font, but it is not free of display effects — the code runs
`GL_tty_init(FGA_mode)` before the font switch, so the display text mode is
reconfigured even for an unrecognized index. -/
theorem font_unknown_index_cex :
    shell_exec "/" ["font", "9"] = (1, [Eff.ttyInit TtyArg.fgaMode]) ∧
    (shell_exec "/" ["font", "9"]).2 ≠ [] := by
  constructor <;> decide

/-- Claim C9 (amended): dispatching `font <n>` with exactly one argument
whose index is not one of the recognized indices 0-3 prints nothing and sets
no font, and returns the continue signal — but it still reinitializes the
display text mode to `FGA_mode`, exactly as it does for recognized
indices. -/
theorem font_unknown_index_silent (cwd a : String)
    (h : atoi a ≠ 0 ∧ atoi a ≠ 1 ∧ atoi a ≠ 2 ∧ atoi a ≠ 3) :
    shell_exec cwd ["font", a] = (1, [Eff.ttyInit TtyArg.fgaMode]) := by
  obtain ⟨h0, h1, h2, h3⟩ := h
  simp [shell_exec, fontEff, h0, h1, h2, h3]

/-- Witness for `font_unknown_index_silent` at index 4, the smallest
unrecognized non-negative index. -/
theorem font_unknown_index_silent_witness :
    shell_exec "/" ["font", "4"] = (1, [Eff.ttyInit TtyArg.fgaMode]) :=
  font_unknown_index_silent "/" "4" ⟨by decide, by decide, by decide, by decide⟩

/-- A command line of 101 letters `a` separated by single spaces:
201 characters, within the 253-character capacity of the line editor. -/
def overflowLine : String :=
  "a a a a a a a a a a a a a a a a a a a a a a a a a a a a a a a a a a a a a a a a a a a a a a a a a a a a a a a a a a a a a a a a a a a a a a a a a a a a a a a a a a a a a a a a a a a a a a a a a a a a a"

set_option maxRecDepth 8192 in
/-- Claim C10 is refuted by the code: the line editor accepts up to
`PATH_LEN - 2 = 253` characters, and `overflowLine` (201 characters, hence
accepted in full) tokenizes into 101 tokens, so the dispatch loop writes
`argv[100]` — one past the end of the 100-element `argv` array.  The claim
that no accepted line produces more than 100 tokens is false; the intent
behind `char* argv[100]` (that 100 slots suffice) is a bug for lines beyond
199 characters. -/
theorem argv_overflow_line :
    overflowLine.length ≤ PATH_LEN - 2 ∧
    (tokenize overflowLine).length = 101 ∧
    100 < (tokenize overflowLine).length := by
  refine ⟨by decide, by decide, by decide⟩

end Commander
